import Mathlib

/-!
Shallow embedding of the patch metadata model and selection/compilation engine
of the revanced-gui repository (files `utils.py`, `worker_handlers.py`,
`gui.py`), together with theorems settling the specification claims about it.

Python strings are modelled as Lean `String` / `List Char`; Python dicts that
only undergo insert-overwrite and lookup are modelled as association lists
with first-position-preserving overwrite (Python 3.7+ dict semantics); Python
sets used only for membership tests are modelled as lists with `∈`.
-/

namespace RevancedGui

/-- Python's whitespace class: the characters matched by `\s` in `re` and
stripped by `str.strip()`. -/
def isPySpace (c : Char) : Bool :=
  c = ' ' || c = '\t' || c = '\n' || c = '\r' || c = '\x0b' || c = '\x0c'

/-- `str.strip()` on a character list. -/
def pyStripL (cs : List Char) : List Char :=
  ((cs.dropWhile isPySpace).reverse.dropWhile isPySpace).reverse

/-- `str.strip()`. -/
def pyStrip (s : String) : String := String.mk (pyStripL s.data)

/-- `str.lower()` on a character (ASCII range, which is all the engine uses). -/
def pyLowerC (c : Char) : Char :=
  if 'A' ≤ c && c ≤ 'Z' then Char.ofNat (c.toNat + 32) else c

/-- `str.lower()`. -/
def pyLower (s : String) : String := String.mk (s.data.map pyLowerC)

/-- An option descriptor as produced by `utils._parse_patches` (the
`opt_dict`): every field is optional because the parser only stores the keys
whose pattern matched. -/
structure OptD where
  title : Option String
  description : Option String
  required : Option Bool
  key : Option String
  type : Option String
  default : Option String
  possible_values : Option (List String)
deriving DecidableEq

/-- A patch record as produced by `utils._parse_patches` (the `patch_dict`).
`options = none` models the absence of the `"options"` key in the dict. -/
structure PatchE where
  index : Option Nat
  name : String
  description : Option String
  enabled : Bool
  packages : List String
  options : Option (List OptD)
deriving DecidableEq

/-! ## Patch applicability filter (`worker_handlers.handle_list_patches`) -/

/-- The per-record keep condition of the inner `filter_rows` function of
`handle_list_patches` (worker_handlers.py:245-257).  Note the source guard is
`if not e.get("index", None): continue`, a Python truthiness test: it skips a
record whose index is `None` *and also* a record whose index is `0`. -/
def keepRow (pkg : String) (allowUniversal : Bool) (e : PatchE) : Bool :=
  match e.index with
  | none => false
  | some i =>
    if i = 0 then false
    else
      let pkgs := e.packages.map pyLower
      let isUniv := pkgs.isEmpty
      if pkg = "" then (!isUniv) || (isUniv && allowUniversal)
      else pkgs.contains pkg || (isUniv && allowUniversal)

/-- `filter_rows` of `handle_list_patches`: rows are appended in entry order,
so the whole loop is a `List.filter`. -/
def filter_rows (entries : List PatchE) (pkg : String) (allowUniversal : Bool) :
    List PatchE :=
  entries.filter (keepRow pkg allowUniversal)

/-- `has_pkg_info = any(e.get("packages") for e in entries)`
(worker_handlers.py:259): a nonempty `packages` list is truthy. -/
def hasPkgInfo (entries : List PatchE) : Bool :=
  entries.any (fun e => !e.packages.isEmpty)

/-- The rows computed by `handle_list_patches` (worker_handlers.py:237-267):
normalises the requested package with `.strip().lower()`, then filters, with
the empty-result fallback re-running the filter with `allow_universal = True`
when the target package is nonempty and some record carries package info. -/
def handle_list_patches_rows (entries : List PatchE) (pkgMsg : String)
    (incUniv : Bool) : List PatchE :=
  let pkg := pyLower (pyStrip pkgMsg)
  if pkg != "" && hasPkgInfo entries then
    let rows := filter_rows entries pkg incUniv
    if rows.isEmpty then filter_rows entries pkg true else rows
  else filter_rows entries pkg incUniv

/-! ## Theorems: C1, C4, C6 -/

/-- C1 (code_bug evaluation): the claim says a record whose index is present —
including index 0 — is never removed by rule 1 of the applicability filter.
The code's truthiness guard drops a record with index 0: here two records
differ only in their index (0 vs 1) and only the index-1 record survives
`filter_rows`, although both carry a present index. -/
theorem c1_index_zero_dropped :
    filter_rows
      [⟨some 0, "Zero", none, false, ["com.a"], none⟩,
       ⟨some 1, "One", none, false, ["com.a"], none⟩] ("") false
      = [⟨some 1, "One", none, false, ["com.a"], none⟩] := by decide

/-- C4: with a nonempty normalised target package, (a) if the first filtering
pass with `include_universal = false` is empty and some record in the full set
has nonempty packages, the returned rows equal the filter re-run with
`include_universal = true`; (b) if no record has package info, or the first
pass is nonempty, the fallback is not applied and the first pass is returned
as-is. -/
theorem c4_fallback (entries : List PatchE) (pkgMsg : String)
    (hpkg : pyLower (pyStrip pkgMsg) ≠ "") :
    (filter_rows entries (pyLower (pyStrip pkgMsg)) false = [] →
      hasPkgInfo entries = true →
      handle_list_patches_rows entries pkgMsg false
        = filter_rows entries (pyLower (pyStrip pkgMsg)) true)
    ∧ (∀ incUniv : Bool,
        hasPkgInfo entries = false ∨
          filter_rows entries (pyLower (pyStrip pkgMsg)) incUniv ≠ [] →
        handle_list_patches_rows entries pkgMsg incUniv
          = filter_rows entries (pyLower (pyStrip pkgMsg)) incUniv) := by
  constructor
  · intro hempty hinfo
    unfold handle_list_patches_rows
    simp only [hinfo, Bool.and_true]
    rw [if_pos (by simpa [bne_iff_ne] using hpkg)]
    simp [hempty]
  · intro incUniv h
    unfold handle_list_patches_rows
    rcases h with h | h
    · simp [h]
    · by_cases hinfo : hasPkgInfo entries = true
      · simp only [hinfo, Bool.and_true]
        rw [if_pos (by simpa [bne_iff_ne] using hpkg)]
        simp [List.isEmpty_iff, h]
      · simp [Bool.not_eq_true] at hinfo
        simp [hinfo]

/-- Closed witness for `c4_fallback`: a concrete record set where the fallback
fires (part a) and a record set where the first pass is nonempty (part b). -/
theorem c4_fallback_witness :
    (handle_list_patches_rows
        [⟨some 1, "A", none, false, ["com.y"], none⟩,
         ⟨some 2, "U", none, false, [], none⟩] ("com.x") false
      = filter_rows
          [⟨some 1, "A", none, false, ["com.y"], none⟩,
           ⟨some 2, "U", none, false, [], none⟩]
          (pyLower (pyStrip ("com.x"))) true)
    ∧ (handle_list_patches_rows
        [⟨some 1, "A", none, false, ["com.y"], none⟩] ("com.y") false
      = filter_rows [⟨some 1, "A", none, false, ["com.y"], none⟩]
          (pyLower (pyStrip ("com.y"))) false) := by
  constructor
  · exact (c4_fallback
      [⟨some 1, "A", none, false, ["com.y"], none⟩,
       ⟨some 2, "U", none, false, [], none⟩] ("com.x") (by decide)).1
      (by decide) (by decide)
  · exact (c4_fallback [⟨some 1, "A", none, false, ["com.y"], none⟩]
      ("com.y") (by decide)).2 false (Or.inr (by decide))

/-- With `allow_universal = true` the full `handle_list_patches` row
computation collapses to a single filter pass: both fallback branches return
the same list. -/
theorem handle_rows_true_eq_filter (entries : List PatchE) (pkgMsg : String) :
    handle_list_patches_rows entries pkgMsg true
      = filter_rows entries (pyLower (pyStrip pkgMsg)) true := by
  unfold handle_list_patches_rows
  by_cases h : (pyLower (pyStrip pkgMsg) != "" && hasPkgInfo entries) = true
  · simp [h]
  · simp [h]

/-- Filtering an already-filtered list again with the same condition changes
nothing. -/
theorem filter_rows_idem (entries : List PatchE) (pkg : String) (b : Bool) :
    filter_rows (filter_rows entries pkg b) pkg b = filter_rows entries pkg b := by
  unfold filter_rows
  induction entries with
  | nil => rfl
  | cons e es ih =>
    by_cases h : keepRow pkg b e = true
    · simp [h, ih]
    · simp [h, ih]

/-- C6: the applicability filter (with its fallback logic, re-evaluated on the
already-filtered subset) is idempotent when `include_universal = true`. -/
theorem c6_filter_idem (entries : List PatchE) (pkgMsg : String) :
    handle_list_patches_rows (handle_list_patches_rows entries pkgMsg true)
        pkgMsg true
      = handle_list_patches_rows entries pkgMsg true := by
  rw [handle_rows_true_eq_filter, handle_rows_true_eq_filter, filter_rows_idem]

/-! ## Selection state reconciler (`gui.App._drain_queues` "patches" branch,
`gui.App._remember_selection`, `gui.App._extract_item_name`)

The item-text regular expressions of gui.py are compiled with no flags, so
`$` matches only at the end of the string or before a string-final newline,
and `.` matches any character except a newline, while `\s` may match a
newline.  The matchers below implement exactly those semantics. -/

/-- Digits of a matched `\d+` group, as `int()` reads them. -/
def digitsToNat (ds : List Char) : Nat :=
  ds.foldl (fun n c => 10 * n + (c.toNat - '0'.toNat)) 0

/-- The prefix of `cs` up to and including its last newline (empty when there
is no newline). -/
def upToLastNL (cs : List Char) : List Char :=
  (cs.reverse.dropWhile (fun c => c ≠ '\n')).reverse

/-- Does `\s*(.*)$` (no MULTILINE: `$` is end-of-string or before a final
newline; `.` excludes newlines) match `rs` in its entirety?  Equivalent to:
after removing an optional final newline, every character up to and including
the last remaining newline is whitespace. -/
def tailDollarOk (rs : List Char) : Bool :=
  let rs' := if rs.getLast? = some '\n' then rs.dropLast else rs
  (upToLastNL rs').all isPySpace

/-- `re.match(r'^\[(\d+)\]\s+(.*)$', text)` as used on list-item texts
(gui.py:482, 860, 680, 699): returns the bracketed number on success.  The
source guard `m and m.group(1).isdigit()` is subsumed: the group is `\d+`, so
it is a nonempty digit string whenever the match succeeds. -/
def matchItemIdx (cs : List Char) : Option Nat :=
  match cs with
  | '[' :: rest =>
    let ds := rest.takeWhile Char.isDigit
    if ds.isEmpty then none
    else
      match rest.drop ds.length with
      | ']' :: rest2 =>
        match rest2 with
        | [] => none
        | c :: rest3 =>
          if isPySpace c && tailDollarOk rest3 then some (digitsToNat ds)
          else none
      | _ => none
  | _ => none

/-- `re.sub(r'^\s*\[\d+\]\s*', '', item_text)` (gui.py:571): strips one
leading bracketed index; leaves the text unchanged when the pattern does not
match at the start. -/
def subItemIdx (cs : List Char) : List Char :=
  let cs1 := cs.dropWhile isPySpace
  match cs1 with
  | '[' :: rest =>
    let ds := rest.takeWhile Char.isDigit
    if ds.isEmpty then cs
    else
      match rest.drop ds.length with
      | ']' :: rest2 => rest2.dropWhile isPySpace
      | _ => cs
  | _ => cs

/-- No newline anywhere. -/
def noNL (cs : List Char) : Bool := cs.all (fun c => c ≠ '\n')

/-- Does `.*\)` followed by `$` match `rest` in its entirety (DOTALL off)? -/
def closeParenOk (rest : List Char) : Bool :=
  (rest.getLast? = some ')' && noNL rest.dropLast) ||
  (match rest.reverse with
   | '\n' :: ')' :: mid => noNL mid
   | _ => false)

/-- Does the optional tail `(\s*\(.*\))?$` of `(.+?)(\s*\(.*\))?$` match `r`
in its entirety? -/
def parenTailOk (r : List Char) : Bool :=
  (r.isEmpty || r = ['\n']) ||
  (match r.dropWhile isPySpace with
   | '(' :: rest => closeParenOk rest
   | _ => false)

/-- The lazy group `(.+?)` of `re.match(r'(.+?)(\s*\(.*\))?$', txt)`: grow the
group one character at a time (never across a newline) until the rest of the
string matches the optional parenthesised tail. -/
def extractScan (acc : List Char) : List Char → Option (List Char)
  | [] => none
  | c :: rs =>
    if c = '\n' then none
    else if parenTailOk rs then some (acc ++ [c])
    else extractScan (acc ++ [c]) rs

/-- `gui.App._extract_item_name` (gui.py:569-573). -/
def extract_item_name (s : String) : String :=
  let txt := pyStripL (subItemIdx s.data)
  match extractScan [] txt with
  | some g => String.mk (pyStripL g)
  | none => String.mk txt

/-- The display label built for a patch row (gui.py:405-408):
`[index] name`, plus a two-space-separated parenthesised package list when
the record has packages. -/
def label (e : PatchE) (i : Nat) : String :=
  let base := "[" ++ toString i ++ "] " ++ e.name
  if e.packages.isEmpty then base
  else base ++ "  (" ++ String.intercalate (", ") e.packages ++ ")"

/-- The "patches" branch of `gui.App._drain_queues` (gui.py:403-415): records
without an index are skipped; each remaining record becomes a list item with
its label and a checked state — `enabled` when `reset` is set, otherwise
membership of the index in the kept-index set or of the name in the
kept-name set. -/
def apply_selection (entries : List PatchE) (keepIdx : List Nat)
    (keepName : List String) (reset : Bool) : List (String × Bool) :=
  entries.filterMap (fun e =>
    match e.index with
    | none => none
    | some i =>
      some (label e i,
        if reset then e.enabled
        else decide (i ∈ keepIdx ∨ e.name ∈ keepName)))

/-- The kept-index set captured by `gui.App._remember_selection`
(gui.py:476-487): for every checked item whose text matches the bracketed
pattern, the bracketed number. -/
def remember_sel_idx (items : List (String × Bool)) : List Nat :=
  items.filterMap (fun tc => if tc.2 then matchItemIdx tc.1.data else none)

/-- The kept-name set captured by `gui.App._remember_selection`: each checked
item contributes its extracted display name (in both regex branches of the
source). -/
def remember_sel_name (items : List (String × Bool)) : List String :=
  items.filterMap (fun tc => if tc.2 then some (extract_item_name tc.1) else none)

/-- A record's display label round-trips: re-parsing the label recovers the
record's index, and extracting the display name recovers the record's name. -/
def labelRoundTrip (e : PatchE) : Bool :=
  match e.index with
  | none => true
  | some i =>
    matchItemIdx (label e i).data == some i &&
    extract_item_name (label e i) == e.name

/-! ## Theorems: C5 -/

/-- Elements mapped to the same value by a `filterMap` whose result has no
duplicates are equal. -/
theorem nodup_filterMap_inj {α β : Type} {l : List α} {f : α → Option β}
    (h : (l.filterMap f).Nodup) {a b : α} (ha : a ∈ l) (hb : b ∈ l)
    {c : β} (hfa : f a = some c) (hfb : f b = some c) : a = b := by
  induction l with
  | nil => cases ha
  | cons x xs ih =>
    rw [List.filterMap_cons] at h
    rcases List.mem_cons.mp ha with rfl | ha' <;>
      rcases List.mem_cons.mp hb with rfl | hb'
    · rfl
    · exfalso
      rw [hfa] at h
      exact (List.nodup_cons.mp h).1 (List.mem_filterMap.mpr ⟨b, hb', hfb⟩)
    · exfalso
      rw [hfb] at h
      exact (List.nodup_cons.mp h).1 (List.mem_filterMap.mpr ⟨a, ha', hfa⟩)
    · refine ih ?_ ha' hb'
      cases hfx : f x
      · rwa [hfx] at h
      · rw [hfx] at h
        exact (List.nodup_cons.mp h).2

/-- Elements mapped to the same value by a `map` whose result has no
duplicates are equal. -/
theorem nodup_map_inj {α β : Type} {l : List α} {f : α → β}
    (h : (l.map f).Nodup) {a b : α} (ha : a ∈ l) (hb : b ∈ l)
    (hf : f a = f b) : a = b := by
  refine nodup_filterMap_inj (f := fun x => some (f x)) ?_ ha hb rfl
    (by rw [hf])
  rw [show (fun x : α => some (f x)) = some ∘ f from rfl, List.filterMap_eq_map]
  exact h

/-- `filterMap` only depends on the function's values on the list. -/
theorem filterMap_congr_mem {α β : Type} {l : List α} {f g : α → Option β}
    (h : ∀ x ∈ l, f x = g x) : l.filterMap f = l.filterMap g := by
  induction l with
  | nil => rfl
  | cons x xs ih =>
    rw [List.filterMap_cons, List.filterMap_cons, h x (List.mem_cons_self x xs),
      ih (fun y hy => h y (List.mem_cons_of_mem x hy))]

/-- A record checked by the first reconciliation contributes its index to the
captured kept-index set. -/
theorem mem_remember_idx_of_check (records : List PatchE) (k0 : List Nat)
    (n0 : List String) {e : PatchE} {i : Nat} (he : e ∈ records)
    (hie : e.index = some i) (hm : matchItemIdx (label e i).data = some i)
    (hchk : i ∈ k0 ∨ e.name ∈ n0) :
    i ∈ remember_sel_idx (apply_selection records k0 n0 false) := by
  apply List.mem_filterMap.mpr
  refine ⟨(label e i, true), ?_, by simpa using hm⟩
  apply List.mem_filterMap.mpr
  refine ⟨e, he, ?_⟩
  rw [hie]
  simp [hchk]

/-- Every member of the captured kept-index set comes from a checked record. -/
theorem remember_idx_elim (records : List PatchE) (k0 : List Nat)
    (n0 : List String) {j : Nat}
    (hj : j ∈ remember_sel_idx (apply_selection records k0 n0 false)) :
    ∃ e, e ∈ records ∧ ∃ i, e.index = some i ∧
      matchItemIdx (label e i).data = some j ∧ (i ∈ k0 ∨ e.name ∈ n0) := by
  rcases List.mem_filterMap.mp hj with ⟨tc, htc, hg⟩
  rcases List.mem_filterMap.mp htc with ⟨e, he, hf⟩
  cases hie : e.index with
  | none => rw [hie] at hf; cases hf
  | some i =>
    rw [hie] at hf
    rcases Option.some.inj hf with rfl
    by_cases hchk : i ∈ k0 ∨ e.name ∈ n0
    · refine ⟨e, he, i, hie, ?_, hchk⟩
      simpa [hchk] using hg
    · simp [hchk] at hg

/-- Every member of the captured kept-name set is the extracted display name
of a checked record. -/
theorem remember_name_elim (records : List PatchE) (k0 : List Nat)
    (n0 : List String) {n : String}
    (hn : n ∈ remember_sel_name (apply_selection records k0 n0 false)) :
    ∃ e, e ∈ records ∧ ∃ i, e.index = some i ∧
      extract_item_name (label e i) = n ∧ (i ∈ k0 ∨ e.name ∈ n0) := by
  rcases List.mem_filterMap.mp hn with ⟨tc, htc, hg⟩
  rcases List.mem_filterMap.mp htc with ⟨e, he, hf⟩
  cases hie : e.index with
  | none => rw [hie] at hf; cases hf
  | some i =>
    rw [hie] at hf
    rcases Option.some.inj hf with rfl
    by_cases hchk : i ∈ k0 ∨ e.name ∈ n0
    · refine ⟨e, he, i, hie, ?_, hchk⟩
      simpa [hchk] using hg
    · simp [hchk] at hg

/-- C5 (amended): reconciliation is idempotent under an unchanged record set
*provided* the displayed records have pairwise-distinct indices and
pairwise-distinct names and each record's display label round-trips (its
index is re-parsed from the label and its name is re-extracted from the
label).  Without those provisos the second application can check additional
records — see `c5_counterexample`. -/
theorem c5_reconcile_idem (records : List PatchE) (k0 : List Nat)
    (n0 : List String)
    (hidx : (records.filterMap (fun e => e.index)).Nodup)
    (hname : ((records.filter (fun e => e.index.isSome)).map
      (fun e => e.name)).Nodup)
    (hrt : ∀ e ∈ records, labelRoundTrip e = true) :
    apply_selection records
        (remember_sel_idx (apply_selection records k0 n0 false))
        (remember_sel_name (apply_selection records k0 n0 false)) false
      = apply_selection records k0 n0 false := by
  apply filterMap_congr_mem
  intro e he
  cases hie : e.index with
  | none => simp [hie]
  | some i =>
    have hrt' := hrt e he
    rw [labelRoundTrip, hie] at hrt'
    simp only [Bool.and_eq_true, beq_iff_eq] at hrt'
    obtain ⟨hm, hx⟩ := hrt'
    have hiff :
        (i ∈ remember_sel_idx (apply_selection records k0 n0 false) ∨
          e.name ∈ remember_sel_name (apply_selection records k0 n0 false)) ↔
        (i ∈ k0 ∨ e.name ∈ n0) := by
      constructor
      · rintro (hKI | hKN)
        · rcases remember_idx_elim records k0 n0 hKI
            with ⟨e', he', i', hie', hm', hchk'⟩
          have hrte := hrt e' he'
          rw [labelRoundTrip, hie'] at hrte
          simp only [Bool.and_eq_true, beq_iff_eq] at hrte
          rw [hrte.1] at hm'
          have hii : i' = i := Option.some.inj hm'
          have hee : e' = e :=
            nodup_filterMap_inj hidx he' he (by rw [hie', hii]) hie
          rw [hii] at hchk'
          rw [hee] at hchk'
          exact hchk'
        · rcases remember_name_elim records k0 n0 hKN
            with ⟨e', he', i', hie', hx', hchk'⟩
          have hrte := hrt e' he'
          rw [labelRoundTrip, hie'] at hrte
          simp only [Bool.and_eq_true, beq_iff_eq] at hrte
          have hnm : e'.name = e.name := by rw [← hx', hrte.2]
          have : e' = e := by
            refine nodup_map_inj hname ?_ ?_ hnm
            · exact List.mem_filter.mpr ⟨he', by simp [hie']⟩
            · exact List.mem_filter.mpr ⟨he, by simp [hie]⟩
          subst this
          have hii : i' = i := by
            rw [hie] at hie'
            exact (Option.some.inj hie').symm
          rw [hii] at hchk'
          exact hchk'
      · intro hchk
        exact Or.inl (mem_remember_idx_of_check records k0 n0 he hie hm hchk)
    simp only [if_neg (by simp : ¬(false = true))]
    exact congrArg some (congrArg _ (decide_eq_decide.mpr hiff))

/-- Closed witness for `c5_reconcile_idem` at a concrete record set with
distinct indices and names. -/
theorem c5_reconcile_idem_witness :
    apply_selection
        [⟨some 3, "A", none, false, [], none⟩,
         ⟨some 5, "B", none, false, [], none⟩]
        (remember_sel_idx (apply_selection
          [⟨some 3, "A", none, false, [], none⟩,
           ⟨some 5, "B", none, false, [], none⟩] [3] [] false))
        (remember_sel_name (apply_selection
          [⟨some 3, "A", none, false, [], none⟩,
           ⟨some 5, "B", none, false, [], none⟩] [3] [] false)) false
      = apply_selection
        [⟨some 3, "A", none, false, [], none⟩,
         ⟨some 5, "B", none, false, [], none⟩] [3] [] false :=
  c5_reconcile_idem
    [⟨some 3, "A", none, false, [], none⟩,
     ⟨some 5, "B", none, false, [], none⟩] [3] []
    (by decide) (by decide) (by decide)

/-- C5 (counterexample to the claim as stated): with two records sharing the
name "A" and only index 3 initially kept, the first application checks only
record 3, but capturing and re-applying checks record 5 as well via the
captured name — reconciliation is not idempotent for every record list. -/
theorem c5_counterexample :
    apply_selection
        [⟨some 3, "A", none, false, [], none⟩,
         ⟨some 5, "A", none, false, [], none⟩]
        (remember_sel_idx (apply_selection
          [⟨some 3, "A", none, false, [], none⟩,
           ⟨some 5, "A", none, false, [], none⟩] [3] [] false))
        (remember_sel_name (apply_selection
          [⟨some 3, "A", none, false, [], none⟩,
           ⟨some 5, "A", none, false, [], none⟩] [3] [] false)) false
      ≠ apply_selection
        [⟨some 3, "A", none, false, [], none⟩,
         ⟨some 5, "A", none, false, [], none⟩] [3] [] false := by decide

/-! ## Invocation compiler (`gui.App.on_build`, gui.py:818-1001)

The compiler is a pure function of: the full record set, the list-widget
items (text, checked), the current package text, the include-universal flag,
the build-option inputs, the per-widget option value strings, and the
path/keystore fields.  Python dict overwrite keeps the first insertion
position; a later record overwrites an earlier binding with the same key. -/

/-- Lookup in `pkgs_map` (gui.py:838-852).  Keys are indices and names mixed
in one dict; the empty name is never bound (`if name:`); the last assignment
wins. -/
def pkgs_map_lookup (entries : List PatchE) :
    Sum Nat String → Option (List String)
  | Sum.inl i =>
    (entries.reverse.find? (fun e => e.index == some i)).map
      (fun e => e.packages)
  | Sum.inr n =>
    (entries.reverse.find? (fun e => e.name == n && n != "")).map
      (fun e => e.packages)

/-- `option_keys = [opt['key'] for opt in e.get('options', []) if
opt.get('key')]` (gui.py:844): keys that are present and nonempty. -/
def option_keys (e : PatchE) : List String :=
  (e.options.getD []).filterMap (fun o =>
    match o.key with
    | some k => if k = "" then none else some k
    | none => none)

/-- Lookup in `index_to_option_keys` (gui.py:847-848, 934): only records with
a nonempty key list are bound; absent indices contribute no option keys. -/
def index_to_option_keys (entries : List PatchE) (i : Nat) : List String :=
  ((entries.reverse.find?
      (fun e => e.index == some i && !(option_keys e).isEmpty)).map
    option_keys).getD []

/-- The applicability re-check applied to each checked item inside `on_build`
(gui.py:863-870) for an item resolving to identifier `ident`. -/
def includeCond (entries : List PatchE) (currentPkg : String) (incUniv : Bool)
    (ident : Sum Nat String) : Bool :=
  let pkgList := (pkgs_map_lookup entries ident).getD []
  let isUniversal := pkgList.isEmpty
  let isForThisPkg :=
    currentPkg != "" && (pkgList.map pyLower).contains currentPkg
  (incUniv && isUniversal) || isForThisPkg || currentPkg == ""

/-- `includes_by_idx` (gui.py:857-874): checked items whose text parses to an
index and which pass the applicability re-check. -/
def includes_by_idx (entries : List PatchE) (items : List (String × Bool))
    (currentPkg : String) (incUniv : Bool) : List Nat :=
  items.filterMap (fun tc =>
    if tc.2 then
      match matchItemIdx tc.1.data with
      | some i =>
        if includeCond entries currentPkg incUniv (Sum.inl i) then some i
        else none
      | none => none
    else none)

/-- `includes_by_name` (gui.py:857-874): checked items whose text does not
parse to an index, with a nonempty extracted name, passing the re-check under
their name identity. -/
def includes_by_name (entries : List PatchE) (items : List (String × Bool))
    (currentPkg : String) (incUniv : Bool) : List String :=
  items.filterMap (fun tc =>
    if tc.2 then
      match matchItemIdx tc.1.data with
      | some _ => none
      | none =>
        let nm := extract_item_name tc.1
        if includeCond entries currentPkg incUniv (Sum.inr nm) && nm != ""
        then some nm else none
    else none)

/-- Python-dict assignment on an association list: overwrite in place keeps
the original position; a new key is appended. -/
def alInsert (l : List (String × String)) (k v : String) :
    List (String × String) :=
  if l.any (fun kv => kv.1 == k) then
    l.map (fun kv => if kv.1 == k then (k, v) else kv)
  else l ++ [(k, v)]

/-- Python-dict lookup on an association list. -/
def alLookup (l : List (String × String)) (k : String) : Option String :=
  (l.find? (fun kv => kv.1 == k)).map (fun kv => kv.2)

/-- `widget_key.split('_', 1)[1]`: the part after the first underscore;
`none` models the `IndexError` (no underscore) that the source swallows. -/
def afterUnderscore : List Char → Option (List Char)
  | [] => none
  | c :: rest => if c = '_' then some rest else afterUnderscore rest

/-- `all_options_values` (gui.py:876-925): the reserved keys driven by the
top-level controls, then the flattened per-widget values.  `widgetVals` are
the `(widget_key, value)` pairs already extracted from the option widgets;
empty values are skipped, and a key colliding with an earlier one silently
overwrites it. -/
def all_options_values (chpkg : String) (updPerms updProviders : Bool)
    (widgetVals : List (String × String)) : List (String × String) :=
  let m : List (String × String) := []
  let m := if chpkg != "" then alInsert m ("packageName") chpkg else m
  let m := if updPerms then alInsert m ("updatePermissions") ("true") else m
  let m := if updProviders then alInsert m ("updateProviders") ("true") else m
  widgetVals.foldl (fun m wv =>
    if wv.2 != "" then
      match afterUnderscore wv.1.data with
      | some key => alInsert m (String.mk key) wv.2
      | none => m
    else m) m

/-- An option-assignment argument: `-O<key>` for an empty value, else
`-O<key>=<value>` (gui.py:938-941, 948-951). -/
def emitOpt (k v : String) : String :=
  if v = "" then ("-O") ++ k else ("-O") ++ k ++ ("=") ++ v

/-- The per-index pass (gui.py:931-942): for each included index, `--ei i`
followed immediately by one option-assignment argument per option key of that
index that has a supplied value.  The consumed-key set is *not* consulted
here. -/
def idx_pass_args (entries : List PatchE) (opts : List (String × String))
    (idxs : List Nat) : List String :=
  idxs.flatMap (fun i =>
    ("--ei") :: toString i ::
      (index_to_option_keys entries i).filterMap (fun k =>
        (alLookup opts k).map (emitOpt k)))

/-- `used_option_keys` after the per-index pass (gui.py:931-942): every option
key of an included index that has a supplied value. -/
def used_option_keys (entries : List PatchE) (opts : List (String × String))
    (idxs : List Nat) : List String :=
  idxs.flatMap (fun i =>
    (index_to_option_keys entries i).filter (fun k =>
      (alLookup opts k).isSome))

/-- The key-value pairs surviving into the remaining-options pass
(gui.py:946-951): supplied values whose key was not consumed. -/
def remaining_option_pairs (opts : List (String × String))
    (used : List String) : List (String × String) :=
  opts.filter (fun kv => !(decide (kv.1 ∈ used)))

/-- The remaining-options pass output (gui.py:946-951). -/
def remaining_option_args (opts : List (String × String))
    (used : List String) : List String :=
  (remaining_option_pairs opts used).map (fun kv => emitOpt kv.1 kv.2)

/-- The full argument vector built by `gui.App.on_build` (gui.py:927-982). -/
def on_build_cmdline (cliJar rvpFile : String) (exclusive : Bool)
    (entries : List PatchE) (items : List (String × Bool))
    (pkgText : String) (incUniv : Bool)
    (chpkgText : String) (updPerms updProviders : Bool)
    (widgetVals : List (String × String))
    (keystoreText ksPassText ksAliasText aliasPassText : String)
    (tmpPath outApk inApk : String) : List String :=
  let currentPkg := pyLower (pyStrip pkgText)
  let chpkg := pyStrip chpkgText
  let ib := includes_by_idx entries items currentPkg incUniv
  let inm := includes_by_name entries items currentPkg incUniv
  let opts := all_options_values chpkg updPerms updProviders widgetVals
  let used := used_option_keys entries opts ib
  let keystore := pyStrip keystoreText
  let ksPass := pyStrip ksPassText
  let ksAlias := pyStrip ksAliasText
  let aliasPass := pyStrip aliasPassText
  ["java", "-jar", cliJar, "patch", "-p", rvpFile, "--purge"]
    ++ (if exclusive then ["--exclusive"] else [])
    ++ idx_pass_args entries opts ib
    ++ inm.flatMap (fun n => [("-e"), n])
    ++ remaining_option_args opts used
    ++ (if keystore != "" then [("--keystore"), keystore] else [])
    ++ (if ksPass != "" then [("--keystore-password"), ksPass] else [])
    ++ (if ksAlias != "" then [("--keystore-entry-alias"), ksAlias] else [])
    ++ (if aliasPass != "" then [("--keystore-entry-password"), aliasPass]
        else [])
    ++ [("--temporary-files-path"), tmpPath, ("-o"), outApk, inApk]

/-! ## Theorems: C3, C8, C10 -/

/-- Membership characterisation of `includes_by_idx`. -/
theorem mem_includes_by_idx (entries : List PatchE)
    (items : List (String × Bool)) (currentPkg : String) (incUniv : Bool)
    (i : Nat) :
    i ∈ includes_by_idx entries items currentPkg incUniv ↔
      ∃ t, (t, true) ∈ items ∧ matchItemIdx t.data = some i ∧
        includeCond entries currentPkg incUniv (Sum.inl i) = true := by
  constructor
  · intro h
    rcases List.mem_filterMap.mp h with ⟨tc, htc, hf⟩
    obtain ⟨t, c⟩ := tc
    cases c
    · simp at hf
    · rw [if_pos rfl] at hf
      cases hm : matchItemIdx t.data with
      | none => rw [hm] at hf; cases hf
      | some j =>
        rw [hm] at hf
        by_cases hc : includeCond entries currentPkg incUniv (Sum.inl j) = true
        · simp [hc] at hf
          subst hf
          exact ⟨t, htc, hm, hc⟩
        · simp [hc] at hf
  · rintro ⟨t, ht, hm, hc⟩
    exact List.mem_filterMap.mpr ⟨(t, true), ht, by simp [hm, hc]⟩

/-- Every index in the include list gets its `--ei <index>` pair emitted by
the per-index pass. -/
theorem ei_emitted_of_mem (entries : List PatchE)
    (opts : List (String × String)) {idxs : List Nat} {i : Nat}
    (hi : i ∈ idxs) :
    ∃ l1 l2, idx_pass_args entries opts idxs
      = l1 ++ ("--ei") :: toString i :: l2 := by
  induction idxs with
  | nil => cases hi
  | cons j js ih =>
    rcases List.mem_cons.mp hi with rfl | hi'
    · refine ⟨[], ((index_to_option_keys entries i).filterMap (fun k =>
        (alLookup opts k).map (emitOpt k))) ++ idx_pass_args entries opts js,
        ?_⟩
      simp [idx_pass_args]
    · rcases ih hi' with ⟨l1, l2, hl⟩
      refine ⟨(("--ei") :: toString j ::
          (index_to_option_keys entries j).filterMap (fun k =>
            (alLookup opts k).map (emitOpt k))) ++ l1, l2, ?_⟩
      simp only [idx_pass_args, List.flatMap_cons] at hl ⊢
      rw [hl]
      simp

/-- C3 (amended): a checked entry that resolves to an index is included —
and hence gets its include-by-index flag pair emitted — iff it passes the
applicability re-check of `on_build`: the target package is empty, or the
entry's packages contain the target package (case-insensitively), or the
entry is universal and include-universal is checked.  It is *not* included
unconditionally. -/
theorem c3_included_iff_applicable (entries : List PatchE)
    (items : List (String × Bool)) (currentPkg : String) (incUniv : Bool) :
    (∀ i : Nat, i ∈ includes_by_idx entries items currentPkg incUniv ↔
      ∃ t, (t, true) ∈ items ∧ matchItemIdx t.data = some i ∧
        includeCond entries currentPkg incUniv (Sum.inl i) = true)
    ∧ ∀ (opts : List (String × String)) (i : Nat),
        i ∈ includes_by_idx entries items currentPkg incUniv →
        ∃ l1 l2, idx_pass_args entries opts
            (includes_by_idx entries items currentPkg incUniv)
          = l1 ++ ("--ei") :: toString i :: l2 :=
  ⟨fun i => mem_includes_by_idx entries items currentPkg incUniv i,
   fun opts _ hi => ei_emitted_of_mem entries opts hi⟩

/-- Closed witness for `c3_included_iff_applicable`: a checked universal
entry with an empty target package is included and emitted. -/
theorem c3_included_iff_applicable_witness :
    ∃ l1 l2, idx_pass_args [⟨some 3, "A", none, false, [], none⟩] []
        (includes_by_idx [⟨some 3, "A", none, false, [], none⟩]
          [(("[3] A"), true)] ("") false)
      = l1 ++ ("--ei") :: toString 3 :: l2 :=
  (c3_included_iff_applicable [⟨some 3, "A", none, false, [], none⟩]
    [(("[3] A"), true)] ("") false).2 [] 3 (by decide)

/-- C3 (counterexample to the claim as stated): a checked entry resolving to
index 3, whose packages are `["com.y"]`, is *not* included when the current
target package is `"com.x"` — even with include-universal checked — and no
`--ei` flag at all appears in the compiled argument vector. -/
theorem c3_counterexample :
    (3 ∉ includes_by_idx [⟨some 3, "A", none, false, ["com.y"], none⟩]
        [(("[3] A  (com.y)"), true)] (pyLower (pyStrip ("com.x"))) true)
    ∧ ("--ei") ∉ on_build_cmdline ("cli.jar") ("p.rvp") true
        [⟨some 3, "A", none, false, ["com.y"], none⟩]
        [(("[3] A  (com.y)"), true)] ("com.x") true ("") false false []
        ("") ("") ("") ("") ("tmp") ("out.apk") ("in.apk") := by decide

/-- C8: (a) in the concrete scenario — checked index 3, widget value
`3_strength = 5`, patch 3 exposing option key `strength` — the compiled
argument vector contains `--ei 3` followed by `-Ostrength=5`, in that
relative order; (b) in general, every option key emitted during the
per-index pass is in the consumed-key set and is therefore never emitted
again by the remaining-options pass. -/
theorem c8_order_and_consumption :
    (∃ l1 l2 : List String,
      on_build_cmdline ("cli.jar") ("p.rvp") true
          [⟨some 3, "P", none, false, [],
            some [⟨some "Strength", none, none, some "strength", none, none,
              none⟩]⟩]
          [(("[3] P"), true)] ("") false ("") false false
          [(("3_strength"), ("5"))] ("") ("") ("") ("")
          ("tmp") ("out.apk") ("in.apk")
        = l1 ++ ("--ei") :: ("3") :: ("-Ostrength=5") :: l2)
    ∧ ∀ (entries : List PatchE) (opts : List (String × String))
        (idxs : List Nat) (k : String),
        k ∈ used_option_keys entries opts idxs →
        k ∉ (remaining_option_pairs opts
              (used_option_keys entries opts idxs)).map Prod.fst := by
  constructor
  · exact ⟨["java", "-jar", "cli.jar", "patch", "-p", "p.rvp", "--purge",
      "--exclusive"],
      ["--temporary-files-path", "tmp", "-o", "out.apk", "in.apk"],
      by decide⟩
  · intro entries opts idxs k hk hmem
    rcases List.mem_map.mp hmem with ⟨kv, hkv, hfst⟩
    have h2 := (List.mem_filter.mp hkv).2
    rw [Bool.not_eq_true'] at h2
    exact (of_decide_eq_false h2) (hfst ▸ hk)

/-- Closed witness for `c8_order_and_consumption`: the consumed key
`strength` does not survive into the remaining-options pass. -/
theorem c8_order_and_consumption_witness :
    ("strength") ∉ (remaining_option_pairs [(("strength"), ("5"))]
        (used_option_keys
          [⟨some 3, "P", none, false, [],
            some [⟨some "Strength", none, none, some "strength", none, none,
              none⟩]⟩]
          [(("strength"), ("5"))] [3])).map Prod.fst :=
  c8_order_and_consumption.2
    [⟨some 3, "P", none, false, [],
      some [⟨some "Strength", none, none, some "strength", none, none, none⟩]⟩]
    [(("strength"), ("5"))] [3] ("strength") (by decide)

/-- Two distinct members of a list contribute separately to the sum of a
function over it. -/
theorem sum_two_le {α : Type} {l : List α} (g : α → Nat) {i j : α}
    (hi : i ∈ l) (hj : j ∈ l) (hij : i ≠ j) :
    g i + g j ≤ (l.map g).sum := by
  induction l with
  | nil => cases hi
  | cons x xs ih =>
    rw [List.map_cons, List.sum_cons]
    rcases List.mem_cons.mp hi with rfl | hi'
    · rcases List.mem_cons.mp hj with rfl | hj'
      · exact absurd rfl hij
      · have hj2 : g j ≤ (xs.map g).sum :=
          List.le_sum_of_mem (List.mem_map_of_mem g hj')
        omega
    · rcases List.mem_cons.mp hj with rfl | hj'
      · have hi2 : g i ≤ (xs.map g).sum :=
          List.le_sum_of_mem (List.mem_map_of_mem g hi')
        omega
      · have := ih hi' hj'
        omega

/-- A per-index block of the per-index pass emits the option-assignment
argument of each of its supplied keys at least once. -/
theorem count_block_pos (entries : List PatchE)
    (opts : List (String × String)) (i : Nat) (k v : String)
    (hk : k ∈ index_to_option_keys entries i)
    (hv : alLookup opts k = some v) :
    1 ≤ (("--ei") :: toString i ::
      (index_to_option_keys entries i).filterMap (fun k' =>
        (alLookup opts k').map (emitOpt k'))).count (emitOpt k v) := by
  apply List.count_pos_iff.mpr
  apply List.mem_cons_of_mem
  apply List.mem_cons_of_mem
  exact List.mem_filterMap.mpr ⟨k, hk, by rw [hv]; rfl⟩

/-- The per-index pass emits a shared supplied option key once per distinct
included index that lists it. -/
theorem idx_pass_count_two (entries : List PatchE)
    (opts : List (String × String)) {idxs : List Nat} {i j : Nat}
    (k v : String) (hi : i ∈ idxs) (hj : j ∈ idxs) (hij : i ≠ j)
    (hki : k ∈ index_to_option_keys entries i)
    (hkj : k ∈ index_to_option_keys entries j)
    (hv : alLookup opts k = some v) :
    2 ≤ (idx_pass_args entries opts idxs).count (emitOpt k v) := by
  rw [idx_pass_args, List.count_flatMap]
  have h2 := sum_two_le
    (fun x => (("--ei") :: toString x ::
      (index_to_option_keys entries x).filterMap (fun k' =>
        (alLookup opts k').map (emitOpt k'))).count (emitOpt k v))
    hi hj hij
  have hbi := count_block_pos entries opts i k v hki hv
  have hbj := count_block_pos entries opts j k v hkj hv
  exact le_trans (Nat.add_le_add hbi hbj) h2

/-- C10: when two distinct included index-resolved patches both list the
same option key and that key has a supplied value, the per-index pass emits
the option-assignment argument once per such patch, so the compiled argument
vector contains the same `-O<key>[=<value>]` string at least twice. -/
theorem c10_duplicate_option_emitted (cliJar rvpFile : String)
    (exclusive : Bool) (entries : List PatchE)
    (items : List (String × Bool)) (pkgText : String) (incUniv : Bool)
    (chpkgText : String) (updPerms updProviders : Bool)
    (widgetVals : List (String × String))
    (keystoreText ksPassText ksAliasText aliasPassText : String)
    (tmpPath outApk inApk : String) (i j : Nat) (k v : String)
    (hi : i ∈ includes_by_idx entries items (pyLower (pyStrip pkgText))
      incUniv)
    (hj : j ∈ includes_by_idx entries items (pyLower (pyStrip pkgText))
      incUniv)
    (hij : i ≠ j)
    (hki : k ∈ index_to_option_keys entries i)
    (hkj : k ∈ index_to_option_keys entries j)
    (hv : alLookup (all_options_values (pyStrip chpkgText) updPerms
      updProviders widgetVals) k = some v) :
    2 ≤ (on_build_cmdline cliJar rvpFile exclusive entries items pkgText
        incUniv chpkgText updPerms updProviders widgetVals keystoreText
        ksPassText ksAliasText aliasPassText tmpPath outApk inApk).count
      (emitOpt k v) := by
  have hcore := idx_pass_count_two entries
    (all_options_values (pyStrip chpkgText) updPerms updProviders widgetVals)
    k v hi hj hij hki hkj hv
  simp only [on_build_cmdline, List.count_append]
  omega

/-- Closed witness for `c10_duplicate_option_emitted`: two selected patches
(indices 1 and 2) both exposing option key `k` with value `5` give an
argument vector containing `-Ok=5` at least twice. -/
theorem c10_duplicate_option_emitted_witness :
    2 ≤ (on_build_cmdline ("cli.jar") ("p.rvp") true
        [⟨some 1, "A", none, false, [],
          some [⟨some "K", none, none, some "k", none, none, none⟩]⟩,
         ⟨some 2, "B", none, false, [],
          some [⟨some "K", none, none, some "k", none, none, none⟩]⟩]
        [(("[1] A"), true), (("[2] B"), true)] ("") false ("") false false
        [(("1_k"), ("5"))] ("") ("") ("") ("") ("tmp") ("out.apk")
        ("in.apk")).count (emitOpt ("k") ("5")) :=
  c10_duplicate_option_emitted ("cli.jar") ("p.rvp") true
    [⟨some 1, "A", none, false, [],
      some [⟨some "K", none, none, some "k", none, none, none⟩]⟩,
     ⟨some 2, "B", none, false, [],
      some [⟨some "K", none, none, some "k", none, none, none⟩]⟩]
    [(("[1] A"), true), (("[2] B"), true)] ("") false ("") false false
    [(("1_k"), ("5"))] ("") ("") ("") ("") ("tmp") ("out.apk") ("in.apk")
    1 2 ("k") ("5") (by decide) (by decide) (by decide) (by decide)
    (by decide) (by decide)

/-! ## Dynamic option enumeration (`gui.App._update_dynamic_options`,
gui.py:489-567) -/

/-- `re.match(r'^\[(\d+)\]', text)` (gui.py:496): a leading bracketed
number, with no constraint on the rest of the text. -/
def matchLeadIdx (cs : List Char) : Option Nat :=
  match cs with
  | '[' :: rest =>
    let ds := rest.takeWhile Char.isDigit
    if ds.isEmpty then none
    else
      match rest.drop ds.length with
      | ']' :: _ => some (digitsToNat ds)
      | _ => none
  | _ => none

/-- The selected patch indices read from the checked list items
(gui.py:492-498). -/
def selected_patch_indices (items : List (String × Bool)) : List Nat :=
  items.filterMap (fun tc => if tc.2 then matchLeadIdx tc.1.data else none)

/-- The reserved option keys excluded from the generic per-option widgets
(gui.py:506). -/
def reservedKeys : List String :=
  ["packageName", "updatePermissions", "updateProviders"]

/-- The `(patch index, option key)` pairs for which
`App._update_dynamic_options` creates a generic option widget row, in
creation order: a patch must have an index that is selected and an
`options` entry; an option must have a nonempty key that is not reserved. -/
def dynamic_option_rows (entries : List PatchE) (selIdx : List Nat) :
    List (Nat × String) :=
  entries.flatMap (fun patch =>
    match patch.index, patch.options with
    | some i, some opts =>
      if decide (i ∈ selIdx) then
        opts.filterMap (fun o =>
          match o.key with
          | some k =>
            if k = "" then none
            else if decide (k ∈ reservedKeys) then none
            else some (i, k)
          | none => none)
      else []
    | _, _ => [])

/-! ## Theorems: C9 -/

/-- C9: (a) no generic option widget row is ever created for a reserved key;
(b) every other keyed option of a selected indexed patch gets a row. -/
theorem c9_reserved_excluded (entries : List PatchE) (selIdx : List Nat) :
    (∀ p ∈ dynamic_option_rows entries selIdx, p.2 ∉ reservedKeys)
    ∧ ∀ e ∈ entries, ∀ i, e.index = some i → i ∈ selIdx →
        ∀ opts, e.options = some opts → ∀ o ∈ opts, ∀ k, o.key = some k →
          k ≠ "" → k ∉ reservedKeys →
          (i, k) ∈ dynamic_option_rows entries selIdx := by
  constructor
  · intro p hp
    rcases List.mem_flatMap.mp hp with ⟨patch, hpatch, hmem⟩
    cases hip : patch.index with
    | none => simp [hip] at hmem
    | some i =>
      cases hop : patch.options with
      | none => simp [hip, hop] at hmem
      | some opts =>
        simp only [hip, hop] at hmem
        by_cases hsel : i ∈ selIdx
        · rw [if_pos (decide_eq_true hsel)] at hmem
          rcases List.mem_filterMap.mp hmem with ⟨o, _, hf⟩
          cases hk : o.key with
          | none => simp [hk] at hf
          | some k =>
            simp only [hk] at hf
            by_cases hke : k = ""
            · simp [hke] at hf
            · rw [if_neg hke] at hf
              by_cases hkr : k ∈ reservedKeys
              · rw [if_pos (decide_eq_true hkr)] at hf; cases hf
              · rw [if_neg (by simpa using hkr)] at hf
                rcases Option.some.inj hf with rfl
                exact hkr
        · rw [if_neg (by simpa using hsel)] at hmem
          simp at hmem
  · intro e he i hie hsel opts hop o ho k hk hke hkr
    apply List.mem_flatMap.mpr
    refine ⟨e, he, ?_⟩
    simp only [hie, hop]
    rw [if_pos (decide_eq_true hsel)]
    apply List.mem_filterMap.mpr
    refine ⟨o, ho, ?_⟩
    simp only [hk]
    rw [if_neg hke, if_neg (by simpa using hkr)]

/-- Closed witness for `c9_reserved_excluded`: a selected indexed patch with
a non-reserved key `k` gets a row. -/
theorem c9_reserved_excluded_witness :
    (1, ("k")) ∈ dynamic_option_rows
      [⟨some 1, "A", none, false, [],
        some [⟨some "T", none, none, some "k", none, none, none⟩,
              ⟨some "R", none, none, some "packageName", none, none, none⟩]⟩]
      [1] :=
  (c9_reserved_excluded
    [⟨some 1, "A", none, false, [],
      some [⟨some "T", none, none, some "k", none, none, none⟩,
            ⟨some "R", none, none, some "packageName", none, none, none⟩]⟩]
    [1]).2
    ⟨some 1, "A", none, false, [],
      some [⟨some "T", none, none, some "k", none, none, none⟩,
            ⟨some "R", none, none, some "packageName", none, none, none⟩]⟩
    (by decide) 1 rfl (by decide)
    [⟨some "T", none, none, some "k", none, none, none⟩,
     ⟨some "R", none, none, some "packageName", none, none, none⟩] rfl
    ⟨some "T", none, none, some "k", none, none, none⟩ (by decide)
    ("k") rfl (by decide) (by decide)

/-! ## Patch text parser (`utils._parse_patches`, utils.py:379-437)

The parser's regular expressions are embedded exactly: with the MULTILINE
flag, `^` matches at the string start and after every newline, and a
trailing `\s*$` succeeds exactly when the rest of the current line is
whitespace; `\s` always may cross newlines; `.` crosses newlines only under
DOTALL.  Each matcher below is anchored at one `^` position, and
`searchStarts` tries the positions left to right, which reproduces
`re.search`'s leftmost-match rule. -/

/-- Drop an exact literal prefix. -/
def dropLit : List Char → List Char → Option (List Char)
  | [], cs => some cs
  | _ :: _, [] => none
  | l :: ls, c :: cs => if c = l then dropLit ls cs else none

/-- Drop an exact literal prefix, string version. -/
def dropLitS (lit : String) (cs : List Char) : Option (List Char) :=
  dropLit lit.data cs

/-- Drop a literal prefix case-insensitively (the `re.I` flag). -/
def dropLitCI : List Char → List Char → Option (List Char)
  | [], cs => some cs
  | _ :: _, [] => none
  | l :: ls, c :: cs =>
    if pyLowerC c = pyLowerC l then dropLitCI ls cs else none

/-- Drop a literal prefix case-insensitively, string version. -/
def dropLitCIS (lit : String) (cs : List Char) : Option (List Char) :=
  dropLitCI lit.data cs

/-- Try an anchored matcher at every position following a newline, left to
right. -/
def searchAfterNL {α : Type} (f : List Char → Option α) :
    List Char → Option α
  | [] => none
  | c :: rest =>
    if c = '\n' then
      match f rest with
      | some a => some a
      | none => searchAfterNL f rest
    else searchAfterNL f rest

/-- `re.search` of a matcher anchored at `(?m)^`: try the string start, then
every position after a newline, leftmost first. -/
def searchStarts {α : Type} (f : List Char → Option α) (cs : List Char) :
    Option α :=
  match f cs with
  | some a => some a
  | none => searchAfterNL f cs

/-- Does a trailing `\s*$` (MULTILINE) match here?  `$` matches at the end
or before any newline, so this succeeds exactly when the rest of the
current line is whitespace. -/
def wsDollarM : List Char → Bool
  | [] => true
  | c :: rest => c = '\n' || (isPySpace c && wsDollarM rest)

/-- `re.split(r'\n\x7b2,\x7d', text)`: cut at every maximal run of two or
more newlines.  The flag records whether we are still consuming the newline
run of the current delimiter (the current segment was already emitted). -/
def splitBlocksGo : Bool → List Char → List Char → List (List Char)
  | _, cur, [] => [cur.reverse]
  | false, cur, '\n' :: '\n' :: rest =>
    cur.reverse :: splitBlocksGo true [] rest
  | false, cur, c :: rest => splitBlocksGo false (c :: cur) rest
  | true, cur, '\n' :: rest => splitBlocksGo true cur rest
  | true, cur, c :: rest => splitBlocksGo false (c :: cur) rest

/-- Split on newlines (for line-wise processing of a block). -/
def splitOnNL : List Char → List (List Char)
  | [] => [[]]
  | '\n' :: rest => [] :: splitOnNL rest
  | c :: rest =>
    match splitOnNL rest with
    | l :: ls => (c :: l) :: ls
    | [] => [[c]]

/-- Is this line the `(?m)^\s*Options:\s*$` marker?  Inside a block newline
runs have length one and both sides of the split are stripped afterwards, so
the `\s*` parts of the marker pattern crossing into adjacent all-whitespace
lines cannot change either stripped side; matching line-wise is therefore
equivalent. -/
def isOptionsMarker (line : List Char) : Bool :=
  match dropLitS ("Options:") (line.dropWhile isPySpace) with
  | some rest => rest.all isPySpace
  | none => false

/-- Split a block's lines at the first `Options:` marker line. -/
def findOptionsSplit (lines : List (List Char)) :
    Option (List (List Char) × List (List Char)) :=
  match lines with
  | [] => none
  | l :: ls =>
    if isOptionsMarker l then some ([], ls)
    else
      match findOptionsSplit ls with
      | some (a, b) => some (l :: a, b)
      | none => none

/-- `main_info_text` of a block (utils.py:385-390): the text before the
`Options:` marker, stripped — or the raw block when there is no marker. -/
def mainTextOf (blk : List Char) : List Char :=
  match findOptionsSplit (splitOnNL blk) with
  | some (pre, _) => pyStripL (List.intercalate ['\n'] pre)
  | none => blk

/-- `options_text` of a block (utils.py:388-390): the text after the
`Options:` marker, stripped — empty when there is no marker. -/
def optionsTextOf (blk : List Char) : List Char :=
  match findOptionsSplit (splitOnNL blk) with
  | some (_, post) => pyStripL (List.intercalate ['\n'] post)
  | none => []

/-- `(?mi)^\s*(?:정보:\s*)?Index:\s*(\d+)\s*$` anchored at one position. -/
def indexAt (cs : List Char) : Option Nat :=
  let cs1 := cs.dropWhile isPySpace
  let cs2 :=
    match dropLitCIS ("정보:") cs1 with
    | some rest => rest.dropWhile isPySpace
    | none => cs1
  match dropLitCIS ("index:") cs2 with
  | none => none
  | some rest =>
    let rest2 := rest.dropWhile isPySpace
    let ds := rest2.takeWhile Char.isDigit
    if ds.isEmpty then none
    else if wsDollarM (rest2.drop ds.length) then some (digitsToNat ds)
    else none

/-- The first newline-segment containing a non-whitespace character,
trimmed. -/
def firstContentSeg : List (List Char) → Option (List Char)
  | [] => none
  | seg :: rest =>
    if seg.any (fun c => !isPySpace c) then some (pyStripL seg)
    else firstContentSeg rest

/-- The value captured by `\s*(.+)` or `\s*(.+?)\s*$` after a field key and
then stripped.  The greedy leading `\s*` (which may cross the single
newlines of a block) makes the group start at the first non-whitespace
character, and `.` cannot cross a newline, so the stripped group is the
first newline-segment with real content, trimmed.  When only whitespace
remains, the engine backtracks `\s*` and the group captures a whitespace
character, stripping to the empty value — possible exactly when some
remaining character is not a newline; otherwise there is no match. -/
def lineFieldValue (r : List Char) : Option (List Char) :=
  match firstContentSeg (splitOnNL r) with
  | some v => some v
  | none => if r.any (fun c => c ≠ '\n') then some [] else none

/-- `(?mi)^\s*Name:\s*(.+?)\s*$` anchored at one position, group stripped. -/
def nameAt (cs : List Char) : Option (List Char) :=
  match dropLitCIS ("name:") (cs.dropWhile isPySpace) with
  | some rest => lineFieldValue rest
  | none => none

/-- `(?mi)^\s*Enabled:\s*(true|false)\s*$` anchored at one position. -/
def enabledAt (cs : List Char) : Option Bool :=
  match dropLitCIS ("enabled:") (cs.dropWhile isPySpace) with
  | none => none
  | some rest =>
    let rest2 := rest.dropWhile isPySpace
    match dropLitCIS ("true") rest2 with
    | some r2 => if wsDollarM r2 then some true else none
    | none =>
      match dropLitCIS ("false") rest2 with
      | some r2 => if wsDollarM r2 then some false else none
      | none => none

/-- ASCII uppercase letter. -/
def isUpperA (c : Char) : Bool := 'A' ≤ c && c ≤ 'Z'

/-- ASCII lowercase letter. -/
def isLowerA (c : Char) : Bool := 'a' ≤ c && c ≤ 'z'

/-- The character class of the packages-section terminator's header word. -/
def isAlphaSpace (c : Char) : Bool := isUpperA c || isLowerA c || c = ' '

/-- The consumed terminator `(?:\n[A-Z][A-Za-z ]+?:|\Z)` of the packages
pattern: end of string, or a newline followed by a capitalised header word
(letters and spaces) ending in a colon. -/
def pkgsEndCond : List Char → Bool
  | [] => true
  | '\n' :: rest =>
    (match rest with
     | c :: rest2 =>
       isUpperA c &&
         (let w := rest2.takeWhile isAlphaSpace
          !w.isEmpty && ((rest2.drop w.length).head? == some ':'))
     | [] => false)
  | _ => false

/-- Grow a lazy DOTALL group one character at a time until the terminator
condition holds on the rest; the group must be nonempty. -/
def lazyScanEnd (p : List Char → Bool) (acc : List Char) :
    List Char → Option (List Char)
  | [] => none
  | c :: rest =>
    if p rest then some (acc ++ [c])
    else lazyScanEnd p (acc ++ [c]) rest

/-- The alternation `(?:Packages?|Compatible packages?):` tried at one
position (the pattern has no leading `\s*` and is case-sensitive). -/
def pkgsHeaderDrop (cs : List Char) : Option (List Char) :=
  match dropLitS ("Packages:") cs with
  | some r => some r
  | none =>
  match dropLitS ("Package:") cs with
  | some r => some r
  | none =>
  match dropLitS ("Compatible packages:") cs with
  | some r => some r
  | none => dropLitS ("Compatible package:") cs

/-- `(?ms)^(?:Packages?|Compatible packages?):\s*(.+?)(?:\n[A-Z][A-Za-z ]+?:|\Z)`
anchored at one position: the captured body of the packages section.  The
greedy `\s*` is preferred, so the body starts after the maximal whitespace
run; when nothing but whitespace follows the colon, backtracking leaves an
all-whitespace body with no identifiers (returned as the empty body). -/
def packagesAt (cs : List Char) : Option (List Char) :=
  match pkgsHeaderDrop cs with
  | none => none
  | some rest =>
    if rest.isEmpty then none
    else
      let r' := rest.dropWhile isPySpace
      if r'.isEmpty then some []
      else lazyScanEnd pkgsEndCond [] r'

/-- The word-character class of the identifier pattern. -/
def isWordC (c : Char) : Bool :=
  isUpperA c || isLowerA c || c.isDigit || c = '_'

/-- The greedy `(?:\.[a-zA-Z0-9_]+)+` part: consume as many dot-separated
word segments as possible; returns the consumed characters and the rest. -/
def dotGroups : Nat → List Char → (List Char × List Char)
  | fuel+1, '.' :: rest =>
    let w := rest.takeWhile isWordC
    if w.isEmpty then ([], '.' :: rest)
    else
      let gr := dotGroups fuel (rest.drop w.length)
      ('.' :: (w ++ gr.1), gr.2)
  | _, cs => ([], cs)

/-- `re.findall(r'\b[a-zA-Z0-9_]+(?:\.[a-zA-Z0-9_]+)+\b', body)`:
left-to-right non-overlapping identifier extraction.  A match can only start
at a word boundary; the trailing boundary holds automatically after a
maximal word segment.  The fuel is an upper bound on the scan steps. -/
def findIds (fuel : Nat) (cs : List Char) (prevWord : Bool) :
    List (List Char) :=
  match fuel, cs with
  | 0, _ => []
  | _, [] => []
  | fuel+1, c :: rest =>
    if !prevWord && isWordC c then
      let w1 := c :: rest.takeWhile isWordC
      let r1 := rest.drop (w1.length - 1)
      let gr := dotGroups fuel r1
      if gr.1.isEmpty then findIds fuel rest (isWordC c)
      else (w1 ++ gr.1) :: findIds fuel gr.2 true
    else findIds fuel rest (isWordC c)

/-- The package identifiers extracted from a packages-section body. -/
def extractPkgIds (body : List Char) : List String :=
  (findIds body.length body false).map String.mk

/-- The lookahead `(?=\n\s*(?:[A-Z][a-z]+:|\Z))` terminating a description
or possible-values body: a newline followed by either whitespace and a
capitalised lowercase-word header with a colon, or whitespace running to the
end of the string. -/
def descEndCond : List Char → Bool
  | '\n' :: rest =>
    rest.all isPySpace ||
    (match rest.dropWhile isPySpace with
     | c :: rest2 =>
       isUpperA c &&
         (let w := rest2.takeWhile isLowerA
          !w.isEmpty && ((rest2.drop w.length).head? == some ':'))
     | [] => false)
  | _ => false

/-- `(?ms)^\s*Description:\s*(.+?)(?=\n\s*(?:[A-Z][a-z]+:|\Z))` anchored at
one position, group stripped.  The greedy `\s*` is preferred; if no valid
terminator exists past the whitespace run, the engine backtracks into the
run, where a successful match captures only whitespace and strips to the
empty description. -/
def descAt (cs : List Char) : Option (List Char) :=
  match dropLitS ("Description:") (cs.dropWhile isPySpace) with
  | none => none
  | some rest =>
    let wlen := (rest.takeWhile isPySpace).length
    let r' := rest.drop wlen
    match lazyScanEnd descEndCond [] r' with
    | some g => some (pyStripL g)
    | none =>
      if decide (1 ≤ wlen) &&
          (List.range wlen).any (fun q => descEndCond (rest.drop (q + 1)))
      then some [] else none

/-- A field of the form `(?m)^\s*Key:\s*(.+)` (case-sensitive), anchored at
one position, group stripped. -/
def lineFieldAt (lit : String) (cs : List Char) : Option (List Char) :=
  match dropLitS lit (cs.dropWhile isPySpace) with
  | some rest => lineFieldValue rest
  | none => none

/-- `(?m)^\s*Default:\s*([^\n\r]+)` anchored at one position, group
stripped: like a line field, but the group additionally stops at a carriage
return. -/
def defaultAt (cs : List Char) : Option (List Char) :=
  match dropLitS ("Default:") (cs.dropWhile isPySpace) with
  | none => none
  | some rest =>
    let r' := rest.dropWhile isPySpace
    match r' with
    | _ :: _ =>
      some (pyStripL (r'.takeWhile (fun c => c ≠ '\n' && c ≠ '\r')))
    | [] =>
      if rest.any (fun c => c ≠ '\n' && c ≠ '\r') then some [] else none

/-- The newline positions inside a whitespace run, as group-start cut
candidates for `\s*\n`, in greedy (rightmost-first) order. -/
def nlCuts (w : List Char) : List Nat :=
  ((List.range w.length).filterMap (fun p =>
    if w.get? p = some '\n' then some (p + 1) else none)).reverse

/-- Try the possible-values group start at each cut, greedy first. -/
def pvTryCuts (rest : List Char) : List Nat → Option (List Char)
  | [] => none
  | c :: cuts =>
    match lazyScanEnd descEndCond [] (rest.drop c) with
    | some g => some g
    | none => pvTryCuts rest cuts

/-- `(?ms)^\s*Possible values:\s*\n(.+?)(?=\n\s*(?:[A-Z][a-z]+:|\Z))`
anchored at one position: the raw captured body.  `\s*\n` requires a newline
inside the whitespace run following the colon; the greedy `\s*` prefers the
rightmost such newline. -/
def pvAt (cs : List Char) : Option (List Char) :=
  match dropLitS ("Possible values:") (cs.dropWhile isPySpace) with
  | none => none
  | some rest =>
    let w := rest.takeWhile isPySpace
    pvTryCuts rest (nlCuts w)

/-- Split on newlines and carriage returns (Python `str.splitlines`; the
difference on `\r\n` is an empty segment, dropped by the filter below). -/
def splitOnNLR : List Char → List (List Char)
  | [] => [[]]
  | c :: rest =>
    if c = '\n' || c = '\r' then [] :: splitOnNLR rest
    else
      match splitOnNLR rest with
      | l :: ls => (c :: l) :: ls
      | [] => [[c]]

/-- `[line.strip() for line in pv_text.splitlines() if line.strip()]`. -/
def pvLines (body : List Char) : List String :=
  (splitOnNLR body).filterMap (fun l =>
    let t := pyStripL l
    if t.isEmpty then none else some (String.mk t))

/-- Is this newline position a chunk-split point of
`re.split(r'(?m)(?=\n\s*Title:)', ...)`? -/
def isTitleCut (rest : List Char) : Bool :=
  match dropLitS ("Title:") (rest.dropWhile isPySpace) with
  | some _ => true
  | none => false

/-- The option sub-blocks: cut before every newline whose following
whitespace leads to a `Title:`; the newline stays with the following
chunk. -/
def splitTitleChunks (cur : List Char) : List Char → List (List Char)
  | [] => [cur.reverse]
  | c :: rest =>
    if c = '\n' && isTitleCut rest then
      cur.reverse :: splitTitleChunks [c] rest
    else splitTitleChunks (c :: cur) rest

/-- Parse one option sub-block (utils.py:412-435): each field is stored only
when its pattern matches, and an empty `opt_dict` is dropped. -/
def parseOption (optBlockRaw : List Char) : Option OptD :=
  let ob := pyStripL optBlockRaw
  if ob.isEmpty then none
  else
    let title := searchStarts (lineFieldAt ("Title:")) ob
    let odesc := searchStarts descAt ob
    let req := searchStarts (lineFieldAt ("Required:")) ob
    let key := searchStarts (lineFieldAt ("Key:")) ob
    let ty := searchStarts (lineFieldAt ("Type:")) ob
    let dflt := searchStarts defaultAt ob
    let pv := searchStarts pvAt ob
    if title.isSome || odesc.isSome || req.isSome || key.isSome ||
        ty.isSome || dflt.isSome || pv.isSome then
      some
        { title := title.map String.mk
          description := odesc.map String.mk
          required := req.map (fun v => pyLower (String.mk v) == "true")
          key := key.map String.mk
          type := ty.map String.mk
          default := dflt.map String.mk
          possible_values := pv.map pvLines }
    else none

/-- Parse one block of `_parse_patches` (utils.py:381-436): blank blocks and
blocks without a recognisable `Name:` field contribute no record. -/
def parseBlock (blk : List Char) : Option PatchE :=
  if (pyStripL blk).isEmpty then none
  else
    match searchStarts nameAt (mainTextOf blk) with
    | none => none
    | some nm =>
      let mi := searchStarts indexAt (mainTextOf blk)
      let md := searchStarts descAt (mainTextOf blk)
      let menab := searchStarts enabledAt (mainTextOf blk)
      let mp :=
        match searchStarts packagesAt (mainTextOf blk) with
        | some b => some b
        | none => searchStarts packagesAt blk
      let otext := optionsTextOf blk
      some
        { index := mi
          name := String.mk (pyStripL nm)
          description := md.map String.mk
          enabled := menab.getD false
          packages :=
            match mp with
            | some body => extractPkgIds body
            | none => []
          options :=
            if otext.isEmpty then none
            else some ((splitTitleChunks [] otext).filterMap parseOption) }

/-- `utils._parse_patches`: strip the input, split into blocks at blank-line
runs, and parse each block independently.  Total by construction: every
input yields an (possibly empty) ordered record list. -/
def parse_patches (text : String) : List PatchE :=
  (splitBlocksGo false [] (pyStripL text.data)).filterMap parseBlock

/-! ## Theorems: C2, C7 -/

/-- The concrete two-block input of spec section 8 item 6. -/
def c2text : String :=
  "Index: 3\nName: Remove ads\nEnabled: false\nCompatible packages: com.foo.bar (1.0.0)\n\nIndex: 7\nName: Custom branding\nEnabled: true"

/-- C2 (counterexample to the claim as stated): the first record's packages
are not `["com.foo.bar"]` — the identifier pattern also extracts the
parenthesised version string `1.0.0`, which is a dot-separated
alphanumeric sequence. -/
theorem c2_counterexample :
    ¬ ((parse_patches c2text).map (fun e => e.packages)
        = [["com.foo.bar"], []]) := by decide

/-- C2 (amended): parsing the two-block scenario yields exactly two records:
record 0 has index 3 and packages `["com.foo.bar", "1.0.0"]` (the version
string also matches the identifier pattern), record 1 has index 7 and no
packages (universal). -/
theorem c2_parse_scenario :
    parse_patches c2text
      = [⟨some 3, "Remove ads", none, false, ["com.foo.bar", "1.0.0"], none⟩,
         ⟨some 7, "Custom branding", none, true, [], none⟩] := by decide

/-- C7: the parser is total by construction (a Lean function returning a
possibly empty ordered list for every input string, with no failure path);
every returned record comes from a block whose main text has a `Name:`
match, and carries that matched name; a blank block or a block with no
recognisable `Name:` field contributes no record. -/
theorem c7_parser_name_semantics (text : String) :
    (∀ r ∈ parse_patches text,
      ∃ blk, blk ∈ splitBlocksGo false [] (pyStripL text.data) ∧
        parseBlock blk = some r ∧
        ∃ nm, searchStarts nameAt (mainTextOf blk) = some nm ∧
          r.name = String.mk (pyStripL nm))
    ∧ ∀ blk ∈ splitBlocksGo false [] (pyStripL text.data),
        searchStarts nameAt (mainTextOf blk) = none →
        parseBlock blk = none := by
  constructor
  · intro r hr
    rcases List.mem_filterMap.mp hr with ⟨blk, hblk, hp⟩
    refine ⟨blk, hblk, hp, ?_⟩
    unfold parseBlock at hp
    by_cases hb : (pyStripL blk).isEmpty = true
    · rw [if_pos hb] at hp; cases hp
    · rw [if_neg hb] at hp
      cases hn : searchStarts nameAt (mainTextOf blk) with
      | none => rw [hn] at hp; cases hp
      | some nm =>
        rw [hn] at hp
        refine ⟨nm, rfl, ?_⟩
        rcases Option.some.inj hp with rfl
        rfl
  · intro blk hblk hn
    unfold parseBlock
    by_cases hb : (pyStripL blk).isEmpty = true
    · rw [if_pos hb]
    · rw [if_neg hb, hn]

/-- Closed witness for `c7_parser_name_semantics`: a banner block with no
`Name:` field produces no record. -/
theorem c7_parser_name_semantics_witness :
    parseBlock (("junk").data) = none :=
  (c7_parser_name_semantics ("junk\n\nName: X")).2 (("junk").data)
    (by decide) (by decide)

end RevancedGui
